import Mathlib

/-!
# Verification of the gwasFHE record-lifecycle logic

Shallow embedding of the logic in `src/frontend/web/src/App.tsx`:
the placeholder cipher (`FHEEncryptNumber` / `FHEDecryptNumber` /
`FHEComputeGWAS`), and the record repository operations
(`loadRecords`, `uploadGWASData`, `processGWAS`) over the generic
key/value smart-contract store.

Modelling conventions:
* JS strings are `List Char`; store byte values are modelled by the
  inductive `StoreVal` below.
* JS numbers (IEEE-754 float64) are an abstract type packaged in a
  `NumModel`: the runtime facts the claims rely on (`parseFloat`
  inverting `Number.prototype.toString` on finite values, ASCII output
  of `toString`, commutativity of float multiplication) appear as
  explicit hypotheses of the theorems.
* `btoa`/`atob` (base64) are implemented concretely; `atob` is modelled
  on canonical (well-padded, alphabet-only) inputs and returns `none`
  elsewhere, which is all the repository code ever feeds it on the
  paths the claims describe.
-/

/-! ## Base64 (the browser primitives `btoa` / `atob`) -/

/-- The standard base64 alphabet used by `btoa`/`atob`. -/
def b64Alphabet : List Char :=
  "ABCDEFGHIJKLMNOPQRSTUVWXYZabcdefghijklmnopqrstuvwxyz0123456789+/".toList

/-- The base64 character for a 6-bit value. -/
def b64Char (s : Nat) : Char := b64Alphabet.getD s '?'

/-- The 6-bit value of a base64 character, `none` for characters outside
the alphabet. -/
def b64Index (c : Char) : Option Nat :=
  (List.range 64).find? (fun i => b64Char i == c)

/-- Base64-encode a byte sequence, three bytes to four characters, with
`=` padding, exactly as `btoa` does. -/
def b64enc : List Nat → List Char
  | [] => []
  | [a] => [b64Char (a / 4), b64Char (a % 4 * 16), '=', '=']
  | [a, b] => [b64Char (a / 4), b64Char (a % 4 * 16 + b / 16), b64Char (b % 16 * 4), '=']
  | a :: b :: c :: rest =>
      b64Char (a / 4) :: b64Char (a % 4 * 16 + b / 16) ::
        b64Char (b % 16 * 4 + c / 64) :: b64Char (c % 64) :: b64enc rest

/-- Base64-decode a canonical base64 string back to bytes; `none` models
the `InvalidCharacterError` that `atob` throws on input it rejects. -/
def b64dec : List Char → Option (List Nat)
  | [] => some []
  | c1 :: c2 :: c3 :: c4 :: rest =>
      match b64Index c1, b64Index c2 with
      | some s1, some s2 =>
          if c3 = '=' then
            if c4 = '=' ∧ rest = [] then some [s1 * 4 + s2 / 16] else none
          else
            match b64Index c3 with
            | some s3 =>
                if c4 = '=' then
                  if rest = [] then some [s1 * 4 + s2 / 16, s2 % 16 * 16 + s3 / 4] else none
                else
                  match b64Index c4, b64dec rest with
                  | some s4, some tail =>
                      some ((s1 * 4 + s2 / 16) :: (s2 % 16 * 16 + s3 / 4) ::
                        (s3 % 4 * 64 + s4) :: tail)
                  | _, _ => none
            | none => none
      | _, _ => none
  | _ => none

/-- Source `window.btoa`: base64 of a binary string (each char a byte). -/
def btoa (s : List Char) : List Char := b64enc (s.map Char.toNat)

/-- Source `window.atob`: inverse of `btoa`; `none` models a thrown
`InvalidCharacterError`. -/
def atob (s : List Char) : Option (List Char) :=
  (b64dec s).map (fun l => l.map Char.ofNat)

theorem b64Index_b64Char : ∀ s, s < 64 → b64Index (b64Char s) = some s := by decide

theorem b64Char_ne_pad : ∀ s, s < 64 → b64Char s ≠ '=' := by decide

theorem b64dec_b64enc : ∀ l : List Nat, (∀ x ∈ l, x < 256) → b64dec (b64enc l) = some l
  | [], _ => by simp [b64enc, b64dec]
  | [a], h => by
      have ha : a < 256 := h a (by simp)
      have e1 := b64Index_b64Char (a / 4) (by omega)
      have e2 := b64Index_b64Char (a % 4 * 16) (by omega)
      simp [b64enc, b64dec, e1, e2]
      omega
  | [a, b], h => by
      have ha : a < 256 := h a (by simp)
      have hb : b < 256 := h b (by simp)
      have e1 := b64Index_b64Char (a / 4) (by omega)
      have e2 := b64Index_b64Char (a % 4 * 16 + b / 16) (by omega)
      have e3 := b64Index_b64Char (b % 16 * 4) (by omega)
      have n3 := b64Char_ne_pad (b % 16 * 4) (by omega)
      simp [b64enc, b64dec, e1, e2, e3, n3]
      omega
  | a :: b :: c :: rest, h => by
      have ha : a < 256 := h a (by simp)
      have hb : b < 256 := h b (by simp)
      have hc : c < 256 := h c (by simp)
      have ih := b64dec_b64enc rest (fun x hx => h x (by simp [hx]))
      have e1 := b64Index_b64Char (a / 4) (by omega)
      have e2 := b64Index_b64Char (a % 4 * 16 + b / 16) (by omega)
      have e3 := b64Index_b64Char (b % 16 * 4 + c / 64) (by omega)
      have e4 := b64Index_b64Char (c % 64) (by omega)
      have n3 := b64Char_ne_pad (b % 16 * 4 + c / 64) (by omega)
      have n4 := b64Char_ne_pad (c % 64) (by omega)
      simp [b64enc, b64dec, e1, e2, e3, e4, n3, n4, ih]
      refine ⟨by omega, by omega, by omega⟩

theorem atob_btoa (s : List Char) (h : ∀ c ∈ s, c.toNat < 256) : atob (btoa s) = some s := by
  unfold atob btoa
  rw [b64dec_b64enc (s.map Char.toNat) (by simpa using h)]
  simp [List.map_map, Function.comp_def, Char.ofNat_toNat]

/-! ## JS numbers

IEEE-754 float64 values and the runtime functions the app applies to
them (`Number.prototype.toString`, `parseFloat`, `Math.exp`, negation,
multiplication, the literal `0.1`) are external to the repository; they
are packaged as an abstract `NumModel`.  Facts about the real float64
runtime that claims rely on (e.g. `parseFloat` inverts `toString` on
every finite value, `toString` output is ASCII) appear as hypotheses of
the theorems below. -/

structure NumModel (N : Type) where
  toStr : N → List Char
  parse : List Char → N
  exp : N → N
  neg : N → N
  mul : N → N → N
  tenth : N

/-! ## The placeholder cipher (`App.tsx` lines 26-42) -/

/-- Source `FHEEncryptNumber` (line 26): `` `FHE-${btoa(value.toString())}` ``. -/
def FHEEncryptNumber {N : Type} (M : NumModel N) (value : N) : List Char :=
  "FHE-".toList ++ btoa (M.toStr value)

/-- Source `FHEDecryptNumber` (line 30): strip the `FHE-` prefix and
base64-decode before `parseFloat`, else `parseFloat` directly.
`none` models the exception `atob` throws on input it rejects. -/
def FHEDecryptNumber {N : Type} (M : NumModel N) (encryptedData : List Char) : Option N :=
  if "FHE-".toList.isPrefixOf encryptedData then
    (atob (encryptedData.drop 4)).map M.parse
  else
    some (M.parse encryptedData)

/-- Source `FHEComputeGWAS` (line 37): decrypt, compute `Math.exp(-value * 0.1)`,
re-encrypt. -/
def FHEComputeGWAS {N : Type} (M : NumModel N) (encryptedData : List Char) :
    Option (List Char) :=
  (FHEDecryptNumber M encryptedData).map fun value =>
    FHEEncryptNumber M (M.exp (M.mul (M.neg value) M.tenth))

/-- The `Derive` formula as the spec words it (§4.1): `Encode(exp(-0.1 * Decode(text)))`,
with the product written `(-0.1) * value`.  Kept separate from
`FHEComputeGWAS` (which follows the source's `-value * 0.1`) so the two
can be compared. -/
def deriveSpec {N : Type} (M : NumModel N) (text : List Char) : Option (List Char) :=
  (FHEDecryptNumber M text).map fun value =>
    FHEEncryptNumber M (M.exp (M.mul (M.neg M.tenth) value))

/-! ## The key/value store

A store value is classified by what `JSON.parse` makes of its bytes:
absent (zero-length), malformed (non-empty bytes that fail to parse —
this also stands in for parseable JSON of a shape neither written by the
app nor distinguished by the spec), a JSON array of strings, or a JSON
record document.  Record documents carry `status`/`snpCount` as optional
fields so that the decoding defaults can be exercised. -/

structure RecordDoc where
  data : List Char
  timestamp : Int
  institution : List Char
  phenotype : List Char
  status : Option (List Char)
  snpCount : Option Int
  deriving DecidableEq

inductive StoreVal
  | absent
  | malformed
  | indexVal (keys : List (List Char))
  | recordVal (doc : RecordDoc)
  deriving DecidableEq

structure Store where
  available : Bool
  entries : List (List Char × StoreVal)
  deriving DecidableEq

/-- The fixed index key `"gwas_record_keys"`. -/
def indexKey : List Char := "gwas_record_keys".toList

/-- The record key scheme `` `gwas_record_${id}` ``. -/
def recordKey (id : List Char) : List Char := "gwas_record_".toList ++ id

/-- Source `contract.getData`: the newest write to a key, `absent` if none. -/
def getData (st : Store) (k : List Char) : StoreVal :=
  match st.entries.find? (fun kv => kv.fst == k) with
  | some kv => kv.snd
  | none => .absent

/-- Source `contract.setData`. -/
def setData (st : Store) (k : List Char) (v : StoreVal) : Store :=
  { st with entries := (k, v) :: st.entries }

/-! ## Record decoding (`loadRecords` lines 116-124) -/

structure GWASRecord where
  id : List Char
  encryptedData : List Char
  timestamp : Int
  institution : List Char
  phenotype : List Char
  status : List Char
  snpCount : Int
  deriving DecidableEq

/-- JS `v || dflt` for a string-valued JSON field: both an absent field
(`undefined`) and the empty string are falsy and give the default; any
other string is kept verbatim. -/
def jsOrStr (v : Option (List Char)) (dflt : List Char) : List Char :=
  match v with
  | none => dflt
  | some s => if s = [] then dflt else s

/-- The record pushed by `loadRecords` for key `key` from a parsed
document: `status: recordData.status || "pending"`,
`snpCount: recordData.snpCount || 0`. -/
def decodeRecord (key : List Char) (doc : RecordDoc) : GWASRecord :=
  { id := key
    encryptedData := doc.data
    timestamp := doc.timestamp
    institution := doc.institution
    phenotype := doc.phenotype
    status := jsOrStr doc.status "pending".toList
    snpCount := doc.snpCount.getD 0 }

/-- The sort order of `list.sort((a, b) => b.timestamp - a.timestamp)`:
descending by timestamp. -/
def tsDesc (a b : GWASRecord) : Prop := b.timestamp ≤ a.timestamp

instance : DecidableRel tsDesc := fun a b => Int.decLe b.timestamp a.timestamp

instance : IsTotal GWASRecord tsDesc := ⟨fun a b => le_total b.timestamp a.timestamp⟩

instance : IsTrans GWASRecord tsDesc := ⟨fun _ _ _ hab hbc => le_trans hbc hab⟩

/-! ## Repository operations (`App.tsx` lines 88-215) -/

/-- One iteration of the record loop of `loadRecords`: a decodable
document yields its decoded record, an absent or malformed one is
skipped (the source logs a warning and continues). -/
def decodeEntry (st : Store) (key : List Char) : Option GWASRecord :=
  match getData st (recordKey key) with
  | .recordVal doc => some (decodeRecord key doc)
  | _ => none

/-- Source `loadRecords` (line 88), as a function from the store to the list it
hands to `setRecords`; `none` means `setRecords` is never reached
(store unavailable, or the aborting throw when the index key holds a
JSON object so that `for (const key of keys)` fails). -/
def loadRecords (st : Store) : Option (List GWASRecord) :=
  if st.available then
    match getData st indexKey with
    | .recordVal _ => none
    | .indexVal keys => some (List.insertionSort tsDesc (keys.filterMap (decodeEntry st)))
    | _ => some []
  else none

inductive UploadOutcome
  | notConnected
  | indexUpdateFailed
  | success
  deriving DecidableEq

/-- The user-supplied form fields consumed by `uploadGWASData`. -/
structure NewRecordData (N : Type) where
  phenotype : List Char
  snpCount : Int
  effectSize : N

/-- Source `uploadGWASData` (line 135): encrypt the effect size, write the
document under `` `gwas_record_${recordId}` ``, then re-read the index,
append the fresh id (an absent or unparseable index yields `[]`), and
write the index back.  `indexUpdateFailed` models the `TypeError` thrown
by `keys.push` when the index key parses to a JSON object. -/
def uploadGWASData {N : Type} (M : NumModel N) (isConnected : Bool) (address : List Char)
    (newRecordData : NewRecordData N) (recordId : List Char) (now : Int)
    (st : Store) : Store × UploadOutcome :=
  if isConnected then
    let encryptedData := FHEEncryptNumber M newRecordData.effectSize
    let recordData : RecordDoc :=
      { data := encryptedData
        timestamp := now
        institution := address
        phenotype := newRecordData.phenotype
        status := some "pending".toList
        snpCount := some newRecordData.snpCount }
    let st1 := setData st (recordKey recordId) (.recordVal recordData)
    match getData st1 indexKey with
    | .recordVal _ => (st1, .indexUpdateFailed)
    | .indexVal keys => (setData st1 indexKey (.indexVal (keys ++ [recordId])), .success)
    | _ => (setData st1 indexKey (.indexVal [recordId]), .success)
  else (st, .notConnected)

inductive ProcessOutcome
  | notConnected
  | notFound
  | failed
  | success
  deriving DecidableEq

/-- Source `processGWAS` (line 186): throws `"Record not found"` on a
zero-length read, otherwise parses the document, derives
`FHEComputeGWAS(recordData.data)` and writes the document back with
`status: "processed"` under the same key.  `failed` models any other
caught exception (unparseable document, or `FHEComputeGWAS` throwing).
The function takes no caller identity and performs no ownership check. -/
def processGWAS {N : Type} (M : NumModel N) (isConnected : Bool) (recordId : List Char)
    (st : Store) : Store × ProcessOutcome :=
  if isConnected then
    match getData st (recordKey recordId) with
    | .absent => (st, .notFound)
    | .recordVal doc =>
        match FHEComputeGWAS M doc.data with
        | some processedData =>
            (setData st (recordKey recordId)
              (.recordVal { doc with status := some "processed".toList, data := processedData }),
             .success)
        | none => (st, .failed)
    | _ => (st, .failed)
  else (st, .notConnected)

/-- Source `isOwner` (line 229): case-insensitive address comparison.  In the
source it only controls whether the view renders the Process button. -/
def isOwner (address recordAddress : List Char) : Bool :=
  address.map Char.toLower == recordAddress.map Char.toLower

/-- The render guard of the Process button (line 469):
`isOwner(record.institution) && record.status === "pending"`. -/
def processButtonVisible (address : List Char) (record : GWASRecord) : Bool :=
  isOwner address record.institution && record.status == "pending".toList

/-! ## A concrete number model for evaluating closed instances

The hypotheses of the theorems below assert facts about the external
float64 runtime; this small computable model satisfies them on the
concrete inputs used by the witnesses, so every conditional theorem can
be evaluated on closed data. -/

def cmodel : NumModel (List Char) where
  toStr := id
  parse := id
  exp := fun s => 'e' :: s
  neg := id
  mul := fun a b => List.replicate (a.length + b.length) 'm'
  tenth := ['t']

/-! ## Store access lemmas -/

theorem getData_setData_same (st : Store) (k : List Char) (v : StoreVal) :
    getData (setData st k v) k = v := by
  simp [getData, setData]

theorem getData_setData_ne (st : Store) (k k' : List Char) (v : StoreVal) (h : k' ≠ k) :
    getData (setData st k v) k' = getData st k' := by
  unfold getData setData
  rw [List.find?_cons_of_neg]
  simp only [beq_iff_eq]
  exact fun he => h (by simpa using he.symm)

theorem indexKey_eq_recordKey_keys : indexKey = recordKey "keys".toList := rfl

theorem recordKey_ne_indexKey {id : List Char} (h : id ≠ "keys".toList) :
    recordKey id ≠ indexKey := by
  intro he
  rw [indexKey_eq_recordKey_keys] at he
  exact h (List.append_cancel_left he)

/-! ## Cipher round trip -/

/-- Decrypting an encrypted value recovers it, provided the runtime's
`parseFloat` inverts `toString` on the value (true of every finite
float64) and `toString` emits byte-sized characters (it emits ASCII). -/
theorem decrypt_encrypt {N : Type} (M : NumModel N) (x : N)
    (hparse : M.parse (M.toStr x) = x)
    (hascii : ∀ c ∈ M.toStr x, c.toNat < 256) :
    FHEDecryptNumber M (FHEEncryptNumber M x) = some x := by
  have hpre : "FHE-".toList.isPrefixOf ("FHE-".toList ++ btoa (M.toStr x)) = true := by
    have hlit : "FHE-".toList = ['F', 'H', 'E', '-'] := rfl
    rw [hlit]
    simp [List.isPrefixOf]
  have hdrop : ("FHE-".toList ++ btoa (M.toStr x)).drop 4 = btoa (M.toStr x) := rfl
  simp only [FHEDecryptNumber, FHEEncryptNumber, hpre, if_true]
  rw [hdrop, atob_btoa _ hascii, Option.map_some', hparse]

/-- C2. For every finite float64 value `x`,
`Decode(Encode(x)) = x`: `Encode` produces `"FHE-" + base64(textOf x)`
and `Decode` strips the prefix, base64-decodes and parses the result.
The float64 facts used — `parseFloat` inverts `toString` on finite
values, and `toString` emits single-byte characters — are the two
hypotheses. -/
theorem c2_decode_encode {N : Type} (M : NumModel N) (x : N)
    (hparse : M.parse (M.toStr x) = x)
    (hascii : ∀ c ∈ M.toStr x, c.toNat < 256) :
    FHEDecryptNumber M (FHEEncryptNumber M x) = some x :=
  decrypt_encrypt M x hparse hascii

theorem c2_decode_encode_witness :
    (cmodel.parse (cmodel.toStr "10".toList) = "10".toList) ∧
    (∀ c ∈ cmodel.toStr "10".toList, c.toNat < 256) ∧
    FHEDecryptNumber cmodel (FHEEncryptNumber cmodel "10".toList) = some "10".toList :=
  ⟨rfl, by decide, c2_decode_encode cmodel "10".toList rfl (by decide)⟩

/-- C3. `Derive` agrees with the spec formula
`Encode(exp(-0.1 * Decode(t)))` (the source computes `-value * 0.1`;
float64 multiplication is commutative and negation distributes over it,
the first two hypotheses), `Derive` is deterministic, and encoding
`effectSize = 10`, deriving, then decoding yields `exp(-1.0)` — the
float64 facts `(-10) * 0.1 = -1`, the `toString`/`parseFloat` round
trips at `10` and at `exp(-1)`, and ASCII output are hypotheses. -/
theorem c3_derive {N : Type} (M : NumModel N) (ten negOne : N)
    (hmulComm : ∀ a b : N, M.mul a b = M.mul b a)
    (hnegMul : ∀ a b : N, M.mul (M.neg a) b = M.neg (M.mul a b))
    (harith : M.mul (M.neg ten) M.tenth = negOne)
    (hparseTen : M.parse (M.toStr ten) = ten)
    (hasciiTen : ∀ c ∈ M.toStr ten, c.toNat < 256)
    (hparseOut : M.parse (M.toStr (M.exp negOne)) = M.exp negOne)
    (hasciiOut : ∀ c ∈ M.toStr (M.exp negOne), c.toNat < 256) :
    (∀ t, FHEComputeGWAS M t = deriveSpec M t) ∧
    (∀ t₁ t₂, t₁ = t₂ → FHEComputeGWAS M t₁ = FHEComputeGWAS M t₂) ∧
    (FHEComputeGWAS M (FHEEncryptNumber M ten)).bind (FHEDecryptNumber M) =
      some (M.exp negOne) := by
  refine ⟨?_, fun t₁ t₂ h => by rw [h], ?_⟩
  · intro t
    unfold FHEComputeGWAS deriveSpec
    congr 1
    funext value
    rw [hnegMul, hmulComm, ← hnegMul]
  · unfold FHEComputeGWAS
    rw [decrypt_encrypt M ten hparseTen hasciiTen, Option.map_some', harith,
      Option.some_bind, decrypt_encrypt M (M.exp negOne) hparseOut hasciiOut]

theorem c3_derive_witness :
    (cmodel.mul (cmodel.neg "10".toList) cmodel.tenth = "mmm".toList) ∧
    (FHEComputeGWAS cmodel (FHEEncryptNumber cmodel "10".toList)).bind
        (FHEDecryptNumber cmodel) = some (cmodel.exp "mmm".toList) :=
  ⟨by decide,
   (c3_derive cmodel "10".toList "mmm".toList
      (fun a b => by simp [cmodel, Nat.add_comm])
      (fun a b => rfl)
      (by decide) rfl (by decide) rfl (by decide)).2.2⟩

/-! ## Concrete fixtures for closed evaluations -/

/-- A pending record owned by address `0xAA`, holding `Encode(10)`. -/
def docAA : RecordDoc where
  data := FHEEncryptNumber cmodel "10".toList
  timestamp := 100
  institution := "0xAA".toList
  phenotype := "height".toList
  status := some "pending".toList
  snpCount := some 5

/-- The same record already processed once. -/
def docAAProcessed : RecordDoc :=
  { docAA with status := some "processed".toList }

/-- What Process writes back for `docAA`. -/
def docAAOut : RecordDoc :=
  { docAA with status := some "processed".toList, data := FHEEncryptNumber cmodel "emmm".toList }

/-- An available store holding `docAA` under id `r1`, with an index. -/
def stAA : Store where
  available := true
  entries := [(indexKey, .indexVal ["r1".toList]), (recordKey "r1".toList, .recordVal docAA)]

/-- An available store holding the already-processed record. -/
def stAAProcessed : Store where
  available := true
  entries := [(recordKey "r1".toList, .recordVal docAAProcessed)]

/-! ## C1: what Process actually checks -/

/-- C1 (amended). `processGWAS` fails with the not-found error when
no document exists for the id, leaving the store unchanged, and does not
reject an already-`processed` record (it re-derives from the derived
value).  But it performs no authorization check of its own: for any
caller that is not the record's owner it still succeeds and rewrites the
record; ownership only gates the view layer, whose Process button is
hidden from non-owners. -/
theorem c1_process_authorization {N : Type} (M : NumModel N) :
    (∀ st recordId, getData st (recordKey recordId) = .absent →
        processGWAS M true recordId st = (st, .notFound)) ∧
    (∀ (caller : List Char) st recordId doc processedData,
        getData st (recordKey recordId) = .recordVal doc →
        FHEComputeGWAS M doc.data = some processedData →
        isOwner caller doc.institution = false →
        processGWAS M true recordId st =
          (setData st (recordKey recordId)
            (.recordVal { doc with status := some "processed".toList, data := processedData }),
           .success)) ∧
    (∀ st recordId doc processedData,
        doc.status = some "processed".toList →
        getData st (recordKey recordId) = .recordVal doc →
        FHEComputeGWAS M doc.data = some processedData →
        (processGWAS M true recordId st).snd = .success) ∧
    (∀ caller record, isOwner caller record.institution = false →
        processButtonVisible caller record = false) := by
  refine ⟨?_, ?_, ?_, ?_⟩
  · intro st recordId h
    simp [processGWAS, h]
  · intro caller st recordId doc processedData hgd hpd _
    simp [processGWAS, hgd, hpd]
  · intro st recordId doc processedData _ hgd hpd
    simp [processGWAS, hgd, hpd]
  · intro caller record h
    simp [processButtonVisible, h]

theorem c1_process_authorization_witness :
    processGWAS cmodel true "zz".toList stAA = (stAA, .notFound) ∧
    processGWAS cmodel true "r1".toList stAA =
      (setData stAA (recordKey "r1".toList)
        (.recordVal docAAOut),
       .success) ∧
    (processGWAS cmodel true "r1".toList stAAProcessed).snd = .success ∧
    processButtonVisible "0xBB".toList (decodeRecord "r1".toList docAA) = false :=
  ⟨(c1_process_authorization cmodel).1 stAA "zz".toList (by decide),
   (c1_process_authorization cmodel).2.1 "0xBB".toList stAA "r1".toList docAA
     (FHEEncryptNumber cmodel "emmm".toList) (by decide) (by decide) (by decide),
   (c1_process_authorization cmodel).2.2.1 stAAProcessed "r1".toList docAAProcessed
     (FHEEncryptNumber cmodel "emmm".toList) (by decide) (by decide) (by decide),
   (c1_process_authorization cmodel).2.2.2 "0xBB".toList (decodeRecord "r1".toList docAA)
     (by decide)⟩

/-- C1 counterexample. A caller that is not case-insensitively equal
to the record's institution does not make Process fail with an
authorization error: on a concrete store the call succeeds and rewrites
the stored record. -/
theorem c1_counterexample :
    isOwner "0xBB".toList docAA.institution = false ∧
    getData stAA (recordKey "r1".toList) = .recordVal docAA ∧
    (processGWAS cmodel true "r1".toList stAA).snd = .success ∧
    getData (processGWAS cmodel true "r1".toList stAA).fst (recordKey "r1".toList) ≠
      getData stAA (recordKey "r1".toList) := by
  refine ⟨by decide, by decide, by decide, by decide⟩

/-! ## C7: the frame of a successful Process -/

/-- C7. When Process succeeds, the document is written back under
the same key with only `status` (now `"processed"`) and `data` (now the
derived value) changed; `timestamp`, `institution`, `phenotype` and
`snpCount` are untouched, every other key of the store — in particular
the index — is untouched. -/
theorem c7_process_frame {N : Type} (M : NumModel N) (recordId : List Char) (st : Store)
    (doc : RecordDoc) (processedData : List Char)
    (hgd : getData st (recordKey recordId) = .recordVal doc)
    (hpd : FHEComputeGWAS M doc.data = some processedData) :
    processGWAS M true recordId st =
      (setData st (recordKey recordId)
        (.recordVal { doc with status := some "processed".toList, data := processedData }),
       .success) ∧
    getData (processGWAS M true recordId st).fst (recordKey recordId) =
      .recordVal { doc with status := some "processed".toList, data := processedData } ∧
    (∀ k, k ≠ recordKey recordId →
        getData (processGWAS M true recordId st).fst k = getData st k) ∧
    (recordId ≠ "keys".toList →
        getData (processGWAS M true recordId st).fst indexKey = getData st indexKey) ∧
    ({ doc with status := some "processed".toList, data := processedData } : RecordDoc).timestamp
        = doc.timestamp ∧
    ({ doc with status := some "processed".toList, data := processedData } : RecordDoc).institution
        = doc.institution ∧
    ({ doc with status := some "processed".toList, data := processedData } : RecordDoc).phenotype
        = doc.phenotype ∧
    ({ doc with status := some "processed".toList, data := processedData } : RecordDoc).snpCount
        = doc.snpCount := by
  have heq : processGWAS M true recordId st =
      (setData st (recordKey recordId)
        (.recordVal { doc with status := some "processed".toList, data := processedData }),
       .success) := by
    simp [processGWAS, hgd, hpd]
  refine ⟨heq, ?_, ?_, ?_, rfl, rfl, rfl, rfl⟩
  · rw [heq]
    exact getData_setData_same _ _ _
  · intro k hk
    rw [heq]
    exact getData_setData_ne _ _ _ _ hk
  · intro h
    rw [heq]
    exact getData_setData_ne _ _ _ _ (Ne.symm (recordKey_ne_indexKey h))

theorem c7_process_frame_witness :
    processGWAS cmodel true "r1".toList stAA =
      (setData stAA (recordKey "r1".toList)
        (.recordVal docAAOut),
       .success) ∧
    getData (processGWAS cmodel true "r1".toList stAA).fst indexKey =
      getData stAA indexKey :=
  ⟨(c7_process_frame cmodel "r1".toList stAA docAA (FHEEncryptNumber cmodel "emmm".toList)
      (by decide) (by decide)).1,
   (c7_process_frame cmodel "r1".toList stAA docAA (FHEEncryptNumber cmodel "emmm".toList)
      (by decide) (by decide)).2.2.2.1 (by decide)⟩

/-! ## C4: List -/

/-- C4. With the store available and the index readable, `List`
produces a list (it never aborts, whatever the individual record
documents hold): exactly the ids whose documents are present and
decodable appear, each decoded, absent or malformed documents are
skipped, and the result is sorted descending by `timestamp`.  The
listing is read-only — `loadRecords` is a function of the store that
issues no write. -/
theorem c4_list_records (st : Store) (keys : List (List Char))
    (hav : st.available = true)
    (hidx : getData st indexKey = .indexVal keys) :
    ∃ l, loadRecords st = some l ∧ l.Sorted tsDesc ∧
      ∀ r, r ∈ l ↔ ∃ key doc, key ∈ keys ∧
        getData st (recordKey key) = .recordVal doc ∧ r = decodeRecord key doc := by
  refine ⟨List.insertionSort tsDesc (keys.filterMap (decodeEntry st)),
    by simp [loadRecords, hav, hidx], List.sorted_insertionSort _ _, ?_⟩
  intro r
  rw [List.mem_insertionSort, List.mem_filterMap]
  constructor
  · rintro ⟨key, hkey, hf⟩
    revert hf
    unfold decodeEntry
    cases hgd : getData st (recordKey key) with
    | recordVal doc =>
        intro hf
        simp only [Option.some.injEq] at hf
        exact ⟨key, doc, hkey, hgd, hf.symm⟩
    | absent => intro hf; cases hf
    | malformed => intro hf; cases hf
    | indexVal ks => intro hf; cases hf
  · rintro ⟨key, doc, hkey, hgd, rfl⟩
    exact ⟨key, hkey, by rw [decodeEntry, hgd]⟩

/-- A store with three decodable records with timestamps 100, 300, 200,
a malformed record and a missing record in the index. -/
def stC4 : Store where
  available := true
  entries :=
    [ (indexKey, .indexVal ["a".toList, "bad".toList, "b".toList, "gone".toList, "c".toList])
    , (recordKey "a".toList, .recordVal { docAA with timestamp := 100 })
    , (recordKey "bad".toList, .malformed)
    , (recordKey "b".toList, .recordVal { docAA with timestamp := 300 })
    , (recordKey "c".toList, .recordVal { docAA with timestamp := 200 }) ]

theorem c4_list_records_witness :
    ∃ l, loadRecords stC4 = some l ∧ l.Sorted tsDesc ∧
      ∀ r, r ∈ l ↔ ∃ key doc,
        key ∈ ["a".toList, "bad".toList, "b".toList, "gone".toList, "c".toList] ∧
        getData stC4 (recordKey key) = .recordVal doc ∧ r = decodeRecord key doc :=
  c4_list_records stC4 _ (by decide) (by decide)

/-- The spec's §8 example run: timestamps `[100, 300, 200]` come back in
the order `[300, 200, 100]` (the malformed and absent documents are
skipped silently). -/
theorem loadRecords_order_demo :
    loadRecords stC4 = some
      [ decodeRecord "b".toList { docAA with timestamp := 300 }
      , decodeRecord "c".toList { docAA with timestamp := 200 }
      , decodeRecord "a".toList { docAA with timestamp := 100 } ] := by decide

/-! ## C5: Create -/

/-- C5. Create (connected, with a fresh id — not the reserved word
`keys`) stores under `"gwas_record_" + id` a document with
`status = "pending"`, `timestamp = now` and `data = Encode(effectSize)`,
whose data decodes back to the given effect size (float64 round-trip
facts as hypotheses); it then writes back the re-read index with the
fresh id appended, tolerating an index that does not yet exist. -/
theorem c5_create {N : Type} (M : NumModel N) (address : List Char)
    (nrd : NewRecordData N) (recordId : List Char) (now : Int) (st : Store)
    (hne : recordId ≠ "keys".toList)
    (hparse : M.parse (M.toStr nrd.effectSize) = nrd.effectSize)
    (hascii : ∀ c ∈ M.toStr nrd.effectSize, c.toNat < 256) :
    getData (uploadGWASData M true address nrd recordId now st).fst (recordKey recordId) =
      .recordVal
        { data := FHEEncryptNumber M nrd.effectSize
          timestamp := now
          institution := address
          phenotype := nrd.phenotype
          status := some "pending".toList
          snpCount := some nrd.snpCount } ∧
    FHEDecryptNumber M (FHEEncryptNumber M nrd.effectSize) = some nrd.effectSize ∧
    (∀ keys, getData st indexKey = .indexVal keys →
        getData (uploadGWASData M true address nrd recordId now st).fst indexKey =
          .indexVal (keys ++ [recordId]) ∧
        (uploadGWASData M true address nrd recordId now st).snd = .success) ∧
    (getData st indexKey = .absent →
        getData (uploadGWASData M true address nrd recordId now st).fst indexKey =
          .indexVal [recordId] ∧
        (uploadGWASData M true address nrd recordId now st).snd = .success) := by
  have hki : indexKey ≠ recordKey recordId := Ne.symm (recordKey_ne_indexKey hne)
  have hkir : recordKey recordId ≠ indexKey := recordKey_ne_indexKey hne
  have hidx1 : ∀ v, getData (setData st (recordKey recordId) v) indexKey =
      getData st indexKey := fun v => getData_setData_ne st _ _ v hki
  refine ⟨?_, decrypt_encrypt M nrd.effectSize hparse hascii, ?_, ?_⟩
  · unfold uploadGWASData
    simp only [if_true, hidx1]
    cases hgd : getData st indexKey <;>
      simp [hgd, getData_setData_ne _ indexKey _ _ hkir, getData_setData_same]
  · intro keys hgd
    unfold uploadGWASData
    simp only [if_true, hidx1, hgd]
    exact ⟨getData_setData_same _ _ _, trivial⟩
  · intro hgd
    unfold uploadGWASData
    simp only [if_true, hidx1, hgd]
    exact ⟨getData_setData_same _ _ _, trivial⟩

/-- The form data of the spec's §8 example (`effectSize = 0.0`, rendered
`"0"` by the JS runtime in `cmodel`'s stead). -/
def nrdZero : NewRecordData (List Char) where
  phenotype := "bmi".toList
  snpCount := 7
  effectSize := "0".toList

theorem c5_create_witness :
    getData (uploadGWASData cmodel true "0xAA".toList nrdZero "r9".toList 500 stAA).fst
        (recordKey "r9".toList) =
      .recordVal
        { data := FHEEncryptNumber cmodel "0".toList
          timestamp := 500
          institution := "0xAA".toList
          phenotype := "bmi".toList
          status := some "pending".toList
          snpCount := some 7 } ∧
    FHEDecryptNumber cmodel (FHEEncryptNumber cmodel "0".toList) = some "0".toList ∧
    getData (uploadGWASData cmodel true "0xAA".toList nrdZero "r9".toList 500 stAA).fst
        indexKey = .indexVal ["r1".toList, "r9".toList] := by
  have h := c5_create cmodel "0xAA".toList nrdZero "r9".toList 500 stAA
    (by decide) rfl (by decide)
  exact ⟨h.1, h.2.1, (h.2.2.1 ["r1".toList] (by decide)).1⟩

/-! ## C10: Create on an unparseable index -/

/-- C10. If at Create time the index bytes are non-empty but fail to
JSON-parse, the caught parse failure leaves the in-memory key list
empty, so Create writes back an index holding only the fresh id: every
previously indexed id is silently discarded. -/
theorem c10_index_clobber {N : Type} (M : NumModel N) (address : List Char)
    (nrd : NewRecordData N) (recordId : List Char) (now : Int) (st : Store)
    (hne : recordId ≠ "keys".toList)
    (hmal : getData st indexKey = .malformed) :
    (uploadGWASData M true address nrd recordId now st).snd = .success ∧
    getData (uploadGWASData M true address nrd recordId now st).fst indexKey =
      .indexVal [recordId] := by
  have hki : indexKey ≠ recordKey recordId := Ne.symm (recordKey_ne_indexKey hne)
  have hidx1 : ∀ v, getData (setData st (recordKey recordId) v) indexKey =
      getData st indexKey := fun v => getData_setData_ne st _ _ v hki
  unfold uploadGWASData
  simp only [if_true, hidx1, hmal]
  exact ⟨trivial, getData_setData_same _ _ _⟩

/-- A store whose index bytes are corrupt while two record documents
are still present. -/
def stCorruptIndex : Store where
  available := true
  entries := [(indexKey, .malformed), (recordKey "r1".toList, .recordVal docAA)]

theorem c10_index_clobber_witness :
    (uploadGWASData cmodel true "0xAA".toList nrdZero "r9".toList 500 stCorruptIndex).snd =
      .success ∧
    getData (uploadGWASData cmodel true "0xAA".toList nrdZero "r9".toList 500
        stCorruptIndex).fst indexKey = .indexVal ["r9".toList] :=
  c10_index_clobber cmodel "0xAA".toList nrdZero "r9".toList 500 stCorruptIndex
    (by decide) (by decide)

/-! ## Shared characterizations of Create and Process -/

/-- Create (connected) always leaves the fresh record document readable
under its key, whatever branch the index update takes. -/
theorem upload_writes_record {N : Type} (M : NumModel N) (address : List Char)
    (nrd : NewRecordData N) (recordId : List Char) (now : Int) (st : Store)
    (hne : recordId ≠ "keys".toList) :
    getData (uploadGWASData M true address nrd recordId now st).fst (recordKey recordId) =
      .recordVal
        { data := FHEEncryptNumber M nrd.effectSize
          timestamp := now
          institution := address
          phenotype := nrd.phenotype
          status := some "pending".toList
          snpCount := some nrd.snpCount } := by
  have hkir : recordKey recordId ≠ indexKey := recordKey_ne_indexKey hne
  have hidx1 : ∀ v, getData (setData st (recordKey recordId) v) indexKey =
      getData st indexKey := fun v => getData_setData_ne st _ _ v (Ne.symm hkir)
  unfold uploadGWASData
  simp only [if_true, hidx1]
  cases hgd : getData st indexKey <;>
    simp [hgd, getData_setData_ne _ indexKey _ _ hkir, getData_setData_same]

/-- Process (connected) on a readable, derivable document: the exact
resulting store and outcome. -/
theorem process_success_eq {N : Type} (M : NumModel N) (recordId : List Char) (st : Store)
    (doc : RecordDoc) (processedData : List Char)
    (hgd : getData st (recordKey recordId) = .recordVal doc)
    (hpd : FHEComputeGWAS M doc.data = some processedData) :
    processGWAS M true recordId st =
      (setData st (recordKey recordId)
        (.recordVal { doc with status := some "processed".toList, data := processedData }),
       .success) := by
  simp [processGWAS, hgd, hpd]

/-! ## C6: which operations consult isAvailable -/

/-- A store reporting unavailable, empty. -/
def stUnavailable : Store where
  available := false
  entries := []

/-- A store reporting unavailable that still holds a record. -/
def stUnavailableRec : Store where
  available := false
  entries := [(recordKey "r1".toList, .recordVal docAA)]

/-- C6 (amended). Only List reacts to `isAvailable()`: when the
store reports unavailable, `loadRecords` returns without surfacing
anything.  `uploadGWASData` and `processGWAS` never consult
`isAvailable()` and proceed normally — Create still writes the record
document and Process still succeeds on a derivable record. -/
theorem c6_availability {N : Type} (M : NumModel N) :
    (∀ st : Store, st.available = false → loadRecords st = none) ∧
    (∀ (st : Store) (address : List Char) (nrd : NewRecordData N) recordId (now : Int),
        st.available = false → recordId ≠ "keys".toList →
        getData (uploadGWASData M true address nrd recordId now st).fst (recordKey recordId) =
          .recordVal
            { data := FHEEncryptNumber M nrd.effectSize
              timestamp := now
              institution := address
              phenotype := nrd.phenotype
              status := some "pending".toList
              snpCount := some nrd.snpCount }) ∧
    (∀ (st : Store) recordId doc processedData, st.available = false →
        getData st (recordKey recordId) = .recordVal doc →
        FHEComputeGWAS M doc.data = some processedData →
        (processGWAS M true recordId st).snd = .success) := by
  refine ⟨?_, ?_, ?_⟩
  · intro st hav
    simp [loadRecords, hav]
  · intro st address nrd recordId now _ hne
    exact upload_writes_record M address nrd recordId now st hne
  · intro st recordId doc processedData _ hgd hpd
    rw [process_success_eq M recordId st doc processedData hgd hpd]

theorem c6_availability_witness :
    loadRecords stUnavailable = none ∧
    getData (uploadGWASData cmodel true "0xAA".toList nrdZero "r9".toList 500
        stUnavailable).fst (recordKey "r9".toList) =
      .recordVal
        { data := FHEEncryptNumber cmodel "0".toList
          timestamp := 500
          institution := "0xAA".toList
          phenotype := "bmi".toList
          status := some "pending".toList
          snpCount := some 7 } ∧
    (processGWAS cmodel true "r1".toList stUnavailableRec).snd = .success :=
  ⟨(c6_availability cmodel).1 stUnavailable rfl,
   (c6_availability cmodel).2.1 stUnavailable "0xAA".toList nrdZero "r9".toList 500
     rfl (by decide),
   (c6_availability cmodel).2.2 stUnavailableRec "r1".toList docAA
     (FHEEncryptNumber cmodel "emmm".toList) rfl (by decide) (by decide)⟩

/-- C6 counterexample. On a store reporting unavailable, Create does
not no-op: it still writes the record document (and Process still
mutates records), so not every operation no-ops. -/
theorem c6_counterexample :
    stUnavailable.available = false ∧
    (uploadGWASData cmodel true "0xAA".toList nrdZero "r9".toList 500 stUnavailable).fst ≠
      stUnavailable ∧
    getData (uploadGWASData cmodel true "0xAA".toList nrdZero "r9".toList 500
        stUnavailable).fst (recordKey "r9".toList) ≠ .absent := by
  refine ⟨rfl, by decide, by decide⟩

/-! ## C8: decoding defaults -/

/-- C8 (amended). A missing — or empty, the other falsy string —
`status` decodes to `"pending"`, but an unknown non-empty status string
is kept verbatim; a missing `snpCount` decodes to `0`; an absent index
value and one that fails to JSON-parse both decode to the empty record
list rather than an error, and the listing continues. -/
theorem c8_decode_defaults (st : Store) (hav : st.available = true) :
    (∀ key doc, doc.status = none → (decodeRecord key doc).status = "pending".toList) ∧
    (∀ key doc, doc.status = some [] → (decodeRecord key doc).status = "pending".toList) ∧
    (∀ key doc s, doc.status = some s → s ≠ [] → (decodeRecord key doc).status = s) ∧
    (∀ key doc, doc.snpCount = none → (decodeRecord key doc).snpCount = 0) ∧
    (getData st indexKey = .absent → loadRecords st = some []) ∧
    (getData st indexKey = .malformed → loadRecords st = some []) := by
  refine ⟨?_, ?_, ?_, ?_, ?_, ?_⟩
  · intro key doc h
    simp [decodeRecord, jsOrStr, h]
  · intro key doc h
    simp [decodeRecord, jsOrStr, h]
  · intro key doc s h hs
    simp [decodeRecord, jsOrStr, h, hs]
  · intro key doc h
    simp [decodeRecord, h]
  · intro h
    simp [loadRecords, hav, h]
  · intro h
    simp [loadRecords, hav, h]

theorem c8_decode_defaults_witness :
    (decodeRecord "r1".toList { docAA with status := none }).status = "pending".toList ∧
    (decodeRecord "r1".toList { docAA with snpCount := none }).snpCount = 0 ∧
    loadRecords { available := true, entries := [] } = some [] ∧
    loadRecords stCorruptIndex = some [] :=
  ⟨(c8_decode_defaults stAA (by decide)).1 "r1".toList { docAA with status := none } rfl,
   (c8_decode_defaults stAA (by decide)).2.2.2.1 "r1".toList { docAA with snpCount := none } rfl,
   (c8_decode_defaults { available := true, entries := [] } rfl).2.2.2.2.1 (by decide),
   (c8_decode_defaults stCorruptIndex rfl).2.2.2.2.2 (by decide)⟩

/-- C8 counterexample. An unknown but non-empty `status` string does
not default to `"pending"`: it is decoded verbatim. -/
theorem c8_counterexample :
    (decodeRecord "r1".toList { docAA with status := some "banana".toList }).status =
      "banana".toList ∧
    "banana".toList ≠ "pending".toList := by
  refine ⟨by decide, by decide⟩

/-! ## C9: status "error" is unreachable -/

/-- A store value that is not a record document with status `"error"`. -/
def noErrorVal : StoreVal → Bool
  | .recordVal doc => doc.status != some "error".toList
  | _ => true

/-- No write anywhere in the store history carries status `"error"`. -/
def NoErrorRecord (st : Store) : Prop := ∀ kv ∈ st.entries, noErrorVal kv.snd = true

instance (st : Store) : Decidable (NoErrorRecord st) :=
  inferInstanceAs (Decidable (∀ kv ∈ st.entries, noErrorVal kv.snd = true))

theorem noError_setData {st : Store} {k : List Char} {v : StoreVal}
    (h : NoErrorRecord st) (hv : noErrorVal v = true) : NoErrorRecord (setData st k v) := by
  intro kv hkv
  rcases List.mem_cons.mp hkv with rfl | hkv
  · exact hv
  · exact h kv hkv

/-- One invocation of a documented operation (List, Create or Process),
with arbitrary arguments, as a step relation on stores. -/
inductive RepoStep {N : Type} (M : NumModel N) : Store → Store → Prop
  | load (st : Store) : RepoStep M st st
  | upload (isConnected : Bool) (address : List Char) (nrd : NewRecordData N)
      (recordId : List Char) (now : Int) (st : Store) :
      RepoStep M st (uploadGWASData M isConnected address nrd recordId now st).fst
  | process (isConnected : Bool) (recordId : List Char) (st : Store) :
      RepoStep M st (processGWAS M isConnected recordId st).fst

theorem repoStep_noError {N : Type} {M : NumModel N} {st st' : Store}
    (hstep : RepoStep M st st') (h : NoErrorRecord st) : NoErrorRecord st' := by
  cases hstep with
  | load => exact h
  | upload isConnected address nrd recordId now st =>
      cases isConnected with
      | false => simpa [uploadGWASData] using h
      | true =>
          unfold uploadGWASData
          simp only [if_true]
          split
          · exact noError_setData h rfl
          · exact noError_setData (noError_setData h rfl) rfl
          · exact noError_setData (noError_setData h rfl) rfl
  | process isConnected recordId st =>
      cases isConnected with
      | false => simpa [processGWAS] using h
      | true =>
          unfold processGWAS
          simp only [if_true]
          split
          · exact h
          · split
            · exact noError_setData h rfl
            · exact h
          · exact h

/-- C9. In every store reachable from a store with no
`"error"`-status record through the documented operations (List, Create,
Process, with arbitrary arguments), no stored record ever has status
`"error"`: Create only writes `"pending"` and Process only writes
`"processed"`, so `"error"` can only come from external corruption of
the initial state. -/
theorem c9_no_error_status {N : Type} (M : NumModel N) (st st' : Store)
    (h0 : NoErrorRecord st)
    (hreach : Relation.ReflTransGen (RepoStep M) st st') :
    NoErrorRecord st' := by
  induction hreach with
  | refl => exact h0
  | tail _ hstep ih => exact repoStep_noError hstep ih

theorem c9_no_error_status_witness :
    NoErrorRecord (processGWAS cmodel true "r1".toList
      (uploadGWASData cmodel true "0xAA".toList nrdZero "r1".toList 500
        { available := true, entries := [] }).fst).fst :=
  c9_no_error_status cmodel { available := true, entries := [] } _ (by decide)
    (Relation.ReflTransGen.tail
      (Relation.ReflTransGen.single
        (RepoStep.upload true "0xAA".toList nrdZero "r1".toList 500 _))
      (RepoStep.process true "r1".toList _))
